import Mathlib

/-
Verification development for the carcruisefinder crawl engine.

The definitions below are a shallow embedding of the crawl orchestration
code: the main scraper class in src/scraper.js (constructor, saveProgress,
stop, scrapeStateWorker, scrapeEventDetails, scrapeAllEvents), the
combined walker in src/combinedScraper.js (scrapeRegionEvents), and the
checkpoint write path.  Network fetches and the HTML extractor are the
injected boundaries (as in the spec): a fetch oracle maps a URL or page
number and a retry count to a classified outcome.  Every run is recorded
as a trace of effects so that ordering properties (write versus dedup-add,
which pages are requested, what happens after a stop is observed) can be
stated and proved.
-/

namespace CarScraper

/-- Observable effects of one crawl run.  Each constructor marks one side
effect of the source code: an HTTP GET of a detail page, an HTTP GET of a
listing page, adding a link to trackedEventLinks, appending a CSV record,
writing the progress file, marking a state completed, a backoff or
politeness sleep, a poll of the isRunning flag, the start of a partition
or of a work batch, and plain or error progress messages. -/
inductive Eff where
  | pollFlag (stopObservedNow : Bool)
  | startPartition (stateId : String)
  | fetchListing (stateId : String) (page : Nat)
  | startBatch
  | httpGet (link : String)
  | addTracked (link : String)
  | writeCsv (link : String)
  | saveProgress
  | markCompleted (stateId : String)
  | sleep (ms : Nat)
  | log
  | errorEvent
  deriving DecidableEq, Repr

/-- Outcome of one axios.get of a listing page: a 200 with the extracted
event links, a 404 response, or a transient network error. -/
inductive PageResult where
  | ok (links : List String)
  | http404
  | netErr
  deriving DecidableEq, Repr

/-- The injected boundaries: listing fetch keyed by state id, page and
retry count; detail fetch keyed by link and retry count (true means the
GET succeeded); the stop flag becomes observed at poll index stopAfter;
maxConcurrency as passed to the constructor. -/
structure Env where
  fetchListing : String → Nat → Nat → PageResult
  fetchEvent : String → Nat → Bool
  stopAfter : Option Nat
  maxConcurrency : Nat

/-- The mutable state of the scraper object: trackedEventLinks,
stateProgress (per state id, the last successfully processed page),
completedStates, processedEvents, totalEventsFound, and a counter of how
many times the isRunning flag has been polled. -/
structure St where
  tracked : List String
  stateProgress : List (String × Nat)
  completed : List String
  processed : Nat
  totalFound : Nat
  polls : Nat
  deriving DecidableEq, Repr

/-- maxRetries literal used by scrapeStateWorker and scrapeEventDetails. -/
def maxRetries : Nat := 3

/-- Whether the k-th poll of the isRunning flag observes a stop request.
The flag is set once by stop() and never reset during a run, so it is a
step function of the poll index. -/
def stopObserved (env : Env) (k : Nat) : Bool :=
  match env.stopAfter with
  | none => false
  | some n => decide (n ≤ k)

/-- One poll of the isRunning flag. -/
def poll (env : Env) (s : St) : Bool × St :=
  (stopObserved env s.polls, { s with polls := s.polls + 1 })

/-- Reading stateProgress[stateId].lastPage. -/
def lookupLastPage (m : List (String × Nat)) (k : String) : Option Nat :=
  (m.find? (fun p => p.1 == k)).map (fun p => p.2)

/-- Assigning stateProgress[stateId].lastPage (newest binding shadows). -/
def setLastPage (m : List (String × Nat)) (k : String) (v : Nat) : List (String × Nat) :=
  (k, v) :: m

/-- maxConcurrency defaulting: options.maxConcurrency falsy means 5. -/
def effectiveConcurrency (env : Env) : Nat :=
  if env.maxConcurrency = 0 then 5 else env.maxConcurrency

/-- Splitting the page links into chunks of maxConcurrency for limited
concurrency, as in scrapeStateWorker.  The first argument of the inner
loop is fuel bounded by the list length. -/
def chunksOfGo (n : Nat) : Nat → List String → List (List String)
  | 0, _ => []
  | _, [] => []
  | fuel + 1, x :: xs => ((x :: xs).take n) :: chunksOfGo n fuel ((x :: xs).drop n)

/-- chunks built by scrapeStateWorker before dispatching event scrapes. -/
def chunksOf (n : Nat) (l : List String) : List (List String) :=
  chunksOfGo n l.length l

/-- Embedding of scrapeEventDetails (src/scraper.js lines 860 to 1026).
One fetch-and-extract of a detail page with up to maxRetries attempts.
Per attempt: if the link is already tracked return null; otherwise on a
retry sleep 2 to the retries times 1000 ms; GET the page; on success
build the record, add the link to trackedEventLinks, write the record to
the CSV and return it; on an error log it and retry until maxRetries.
Fuel is maxRetries minus retries. -/
def scrapeEventDetailsAux (env : Env) (link : String) :
    Nat → Nat → St → List Eff × St × Bool
  | 0, _, s => ([], s, false)
  | fuel + 1, retries, s =>
    if link ∈ s.tracked then ([], s, false)
    else
      let backoff := if retries > 0 then [Eff.sleep (2 ^ retries * 1000)] else []
      if env.fetchEvent link retries then
        (backoff ++ [Eff.httpGet link, Eff.addTracked link, Eff.writeCsv link, Eff.log],
          { s with tracked := link :: s.tracked }, true)
      else
        let t := backoff ++ [Eff.httpGet link, Eff.errorEvent]
        if retries + 1 ≥ maxRetries then (t, s, false)
        else
          let r := scrapeEventDetailsAux env link fuel (retries + 1) s
          (t ++ r.1, r.2.1, r.2.2)

/-- scrapeEventDetails entry point: retries start at 0. -/
def scrapeEventDetails (env : Env) (link : String) (s : St) : List Eff × St × Bool :=
  scrapeEventDetailsAux env link maxRetries 0 s

/-- Sequential model of one chunk of concurrent scrapeEventDetails calls
(Promise.allSettled over the chunk).  Returns the count of fulfilled
non-null results. -/
def processChunk (env : Env) : List String → St → List Eff × St × Nat
  | [], s => ([], s, 0)
  | l :: ls, s =>
    let r := scrapeEventDetails env l s
    let r2 := processChunk env ls r.2.1
    (r.1 ++ r2.1, r2.2.1, (if r.2.2 then 1 else 0) + r2.2.2)

/-- The per-chunk loop of scrapeStateWorker: before each chunk the
isRunning flag is checked (abort returns early); after each chunk
processedEvents is bumped, progress is logged and saveProgress runs.
The Bool result is true when the loop aborted on a stop request. -/
def processChunks (env : Env) : List (List String) → St → List Eff × St × Bool
  | [], s => ([], s, false)
  | c :: cs, s =>
    let p := poll env s
    if p.1 then ([Eff.pollFlag true, Eff.log], p.2, true)
    else
      let r := processChunk env c p.2
      let s2 := { r.2.1 with processed := r.2.1.processed + r.2.2 }
      let r2 := processChunks env cs s2
      (Eff.pollFlag false :: Eff.startBatch :: r.1 ++ Eff.log :: Eff.saveProgress :: r2.1,
        r2.2.1, r2.2.2)

/-- How one listing page attempt of scrapeStateWorker ended. -/
inductive PageOutcome where
  | gotLinks (links : List String)
  | pageEmpty
  | ended404
  | exhausted
  | stoppedMid
  deriving DecidableEq, Repr

/-- Embedding of the retry loop over one listing page of
scrapeStateWorker (src/scraper.js lines 642 to 782).  Per attempt: log
the page; on a retry sleep 2 to the retries times 1000 ms and log; GET
the page.  On a 200: filter the extracted links against
trackedEventLinks; if none remain pagination ends; otherwise process the
links in chunks (abort propagates), then bump totalEventsFound, record
lastPage := page in stateProgress, save progress and sleep 1000 ms.  On
an error: log it; a 404 ends pagination; otherwise retry until
maxRetries is exhausted.  Fuel is maxRetries minus retries. -/
def pageAttemptAux (env : Env) (sid : String) (page : Nat) :
    Nat → Nat → St → List Eff × St × PageOutcome
  | 0, _, s => ([], s, PageOutcome.exhausted)
  | fuel + 1, retries, s =>
    let backoff := if retries > 0 then [Eff.sleep (2 ^ retries * 1000), Eff.log] else []
    let tAtt := Eff.log :: backoff ++ [Eff.fetchListing sid page]
    match env.fetchListing sid page retries with
    | PageResult.ok rawLinks =>
      let links := rawLinks.filter (fun l => decide (l ∉ s.tracked))
      if links.isEmpty then (tAtt, s, PageOutcome.pageEmpty)
      else
        let r := processChunks env (chunksOf (effectiveConcurrency env) links) s
        if r.2.2 then (tAtt ++ r.1, r.2.1, PageOutcome.stoppedMid)
        else
          let s2 := { r.2.1 with
            totalFound := r.2.1.totalFound + links.length,
            stateProgress := setLastPage r.2.1.stateProgress sid page }
          (tAtt ++ r.1 ++ [Eff.saveProgress, Eff.sleep 1000], s2, PageOutcome.gotLinks links)
    | PageResult.http404 => (tAtt ++ [Eff.errorEvent], s, PageOutcome.ended404)
    | PageResult.netErr =>
      let t := tAtt ++ [Eff.errorEvent]
      if retries + 1 ≥ maxRetries then (t, s, PageOutcome.exhausted)
      else
        let r := pageAttemptAux env sid page fuel (retries + 1) s
        (t ++ r.1, r.2.1, r.2.2)

/-- One listing page with retries, starting at retries = 0. -/
def pageAttempt (env : Env) (sid : String) (page : Nat) (s : St) :
    List Eff × St × PageOutcome :=
  pageAttemptAux env sid page maxRetries 0 s

/-- How the pagination loop of scrapeStateWorker ended. -/
inductive LoopEnd where
  | finished
  | abortedStop
  | fuelOut
  deriving DecidableEq, Repr

/-- Embedding of the outer while (hasMorePages) loop of scrapeStateWorker:
before each page the isRunning flag is checked (abort returns the links
scraped so far); a successful page appends its links and moves to the
next page; an empty page, a 404 or retry exhaustion ends the loop. -/
def pagesLoopAux (env : Env) (sid : String) :
    Nat → Nat → List String → St → List Eff × St × List String × LoopEnd
  | 0, _, acc, s => ([], s, acc, LoopEnd.fuelOut)
  | fuel + 1, page, acc, s =>
    let p := poll env s
    if p.1 then ([Eff.pollFlag true, Eff.log], p.2, acc, LoopEnd.abortedStop)
    else
      let r := pageAttempt env sid page p.2
      match r.2.2 with
      | PageOutcome.gotLinks links =>
        let r2 := pagesLoopAux env sid fuel (page + 1) (acc ++ links) r.2.1
        (Eff.pollFlag false :: r.1 ++ r2.1, r2.2.1, r2.2.2.1, r2.2.2.2)
      | PageOutcome.pageEmpty =>
        (Eff.pollFlag false :: r.1, r.2.1, acc, LoopEnd.finished)
      | PageOutcome.ended404 =>
        (Eff.pollFlag false :: r.1, r.2.1, acc, LoopEnd.finished)
      | PageOutcome.exhausted =>
        (Eff.pollFlag false :: r.1, r.2.1, acc, LoopEnd.finished)
      | PageOutcome.stoppedMid =>
        (Eff.pollFlag false :: r.1, r.2.1, acc, LoopEnd.abortedStop)

/-- Embedding of scrapeStateWorker (src/scraper.js lines 578 to 805).
Entry checks: the isRunning flag (abort), then completedStates (skip).
The start page is stateProgress[stateId].lastPage + 1 when a last page
was recorded, else 1.  When the pagination loop finishes (empty page,
404 or retry exhaustion alike) the state is added to completedStates,
logged and progress is saved; an abort skips the completion marking.
The Bool result is true when the worker aborted on a stop request. -/
def scrapeStateWorker (env : Env) (sid : String) (fuel : Nat) (s : St) :
    List Eff × St × List String × Bool :=
  let p := poll env s
  if p.1 then ([Eff.pollFlag true, Eff.log], p.2, [], true)
  else if sid ∈ p.2.completed then ([Eff.pollFlag false, Eff.log], p.2, [], false)
  else
    let startPage := match lookupLastPage p.2.stateProgress sid with
      | some lp => lp + 1
      | none => 1
    let r := pagesLoopAux env sid fuel startPage [] p.2
    match r.2.2.2 with
    | LoopEnd.finished =>
      (Eff.pollFlag false :: r.1 ++ [Eff.markCompleted sid, Eff.log, Eff.saveProgress],
        { r.2.1 with completed := sid :: r.2.1.completed }, r.2.2.1, false)
    | LoopEnd.abortedStop => (Eff.pollFlag false :: r.1, r.2.1, r.2.2.1, true)
    | LoopEnd.fuelOut => (Eff.pollFlag false :: r.1, r.2.1, r.2.2.1, false)

/-- Embedding of the partition loop of scrapeAllEvents (src/scraper.js
lines 1061 to 1129): per partition the isRunning flag is polled (on stop:
log, save progress and return), a partition already in completedStates is
skipped, otherwise scrapeStateWorker runs and progress is saved after it.
The Bool result is true when the loop returned on a stop request. -/
def scrapeAllEventsAux (env : Env) (fuel : Nat) :
    List String → St → List Eff × St × Bool
  | [], s => ([Eff.log], s, false)
  | pid :: rest, s =>
    let p := poll env s
    if p.1 then ([Eff.pollFlag true, Eff.log, Eff.saveProgress], p.2, true)
    else if pid ∈ p.2.completed then
      let r := scrapeAllEventsAux env fuel rest p.2
      (Eff.pollFlag false :: Eff.log :: r.1, r.2.1, r.2.2)
    else
      let w := scrapeStateWorker env pid fuel p.2
      let r := scrapeAllEventsAux env fuel rest w.2.1
      (Eff.pollFlag false :: Eff.startPartition pid :: w.1 ++ Eff.log :: Eff.saveProgress :: r.1,
        r.2.1, r.2.2)

/-- Embedding of scrapeAllEvents (src/scraper.js lines 1029 to 1145): an
initial summary log, the partition loop over the partitions from the
resume index on, and the final saveProgress in the finally block. -/
def scrapeAllEvents (env : Env) (fuel : Nat) (parts : List String)
    (resumeIdx : Nat) (s : St) : List Eff × St × Bool :=
  let r := scrapeAllEventsAux env fuel (parts.drop resumeIdx) s
  (Eff.log :: r.1 ++ [Eff.saveProgress], r.2.1, r.2.2)

end CarScraper

namespace Combined

/-- Result shape of scrapeWithAxios and scrapeWithPuppeteer in
src/combinedScraper.js: a success flag and the extracted event links. -/
structure FetchRes where
  success : Bool
  links : List String
  deriving DecidableEq, Repr

/-- The two injected fetch paths of the combined walker, per page
number. -/
structure CEnv where
  axios : Nat → FetchRes
  puppet : Nat → FetchRes

/-- Effects of the combined walker. -/
inductive CWEff where
  | axiosFetch (page : Nat)
  | pupFetch (page : Nat)
  | csleep
  | clog
  deriving DecidableEq, Repr

/-- The spread of a JS Set over the accumulated links: duplicates removed
keeping the first occurrence of each link, in order. -/
def jsDedup (l : List String) : List String :=
  l.foldl (fun acc x => if x ∈ acc then acc else acc ++ [x]) []

/-- Embedding of the while (hasMorePages) loop of scrapeRegionEvents
(src/combinedScraper.js lines 248 to 302).  Per page: try axios; if that
failed or found nothing, fall back to puppeteer; if both paths yielded
nothing bump consecutiveEmptyPages and stop once it reaches 2; any yield
resets the counter and appends the links; then move to the next page and
sleep.  Every exit returns the accumulated links deduplicated through a
Set. -/
def scrapeRegionEventsAux (cenv : CEnv) :
    Nat → Nat → Nat → List String → List CWEff × List String
  | 0, _, _, acc => ([], jsDedup acc)
  | fuel + 1, page, consec, acc =>
    let a := cenv.axios page
    if !a.success || a.links.isEmpty then
      let pr := cenv.puppet page
      if !pr.success || pr.links.isEmpty then
        if consec + 1 ≥ 2 then
          ([CWEff.axiosFetch page, CWEff.clog, CWEff.pupFetch page, CWEff.clog], jsDedup acc)
        else
          let r := scrapeRegionEventsAux cenv fuel (page + 1) (consec + 1) acc
          ([CWEff.axiosFetch page, CWEff.clog, CWEff.pupFetch page, CWEff.clog, CWEff.csleep]
            ++ r.1, r.2)
      else
        let r := scrapeRegionEventsAux cenv fuel (page + 1) 0 (acc ++ pr.links)
        ([CWEff.axiosFetch page, CWEff.clog, CWEff.pupFetch page, CWEff.csleep] ++ r.1, r.2)
    else
      let r := scrapeRegionEventsAux cenv fuel (page + 1) 0 (acc ++ a.links)
      ([CWEff.axiosFetch page, CWEff.csleep] ++ r.1, r.2)

/-- scrapeRegionEvents entry point: page 1, empty counter and
accumulator. -/
def scrapeRegionEvents (cenv : CEnv) (fuel : Nat) : List CWEff × List String :=
  scrapeRegionEventsAux cenv fuel 1 0 []

/-- The listing pages the combined walker requested, in order. -/
def requestedPages (T : List CWEff) : List Nat :=
  T.filterMap (fun e => match e with
    | CWEff.axiosFetch p => some p
    | _ => none)

end Combined

namespace Checkpoint

/-- File system operations the checkpoint path may perform. -/
inductive FileOp where
  | fwrite (path content : String)
  | frename (src dst : String)
  deriving DecidableEq, Repr

/-- The progress file path of the scraper. -/
def progressPath : String := "scraper_progress.json"

/-- Embedding of saveProgress (src/scraper.js lines 471 to 491): the
serialized progress state is written directly to the progress file with
fs.writeFile.  This is the complete list of file operations it
performs. -/
def saveProgressOps (serialized : String) : List FileOp :=
  [FileOp.fwrite progressPath serialized]

/-- The property the claim asserts of the save path: the state is written
to a temporary location distinct from the progress file and then renamed
over it. -/
def atomicReplaceSave (ops : List FileOp) : Prop :=
  ∃ tmp content, tmp ≠ progressPath ∧
    ops = [FileOp.fwrite tmp content, FileOp.frename tmp progressPath]

/-- A file is either intact with some content or torn by an interrupted
write. -/
inductive FileVal where
  | intact (content : String)
  | torn
  deriving DecidableEq, Repr

/-- Effect of one completed file operation on the file system. -/
def applyOp (f : String → Option FileVal) : FileOp → String → Option FileVal
  | FileOp.fwrite p c => fun q => if q = p then some (FileVal.intact c) else f q
  | FileOp.frename a b => fun q => if q = b then f a else if q = a then none else f q

/-- Effect of a crash in the middle of one file operation: an in-place
write can be torn; a rename is atomic, so a crash leaves the old state. -/
def crashDuring (f : String → Option FileVal) : FileOp → String → Option FileVal
  | FileOp.fwrite p _ => fun q => if q = p then some FileVal.torn else f q
  | FileOp.frename _ _ => fun q => f q

/-- Run a list of file operations, crashing during the operation at index
k (operations before k complete, the k-th is interrupted, the rest never
run).  If k is past the end, all operations complete. -/
def runCrash : List FileOp → Nat → (String → Option FileVal) → String → Option FileVal
  | [], _, f => f
  | op :: _, 0, f => crashDuring f op
  | op :: rest, k + 1, f => runCrash rest k (applyOp f op)

end Checkpoint

namespace CarScraper

/-- The backoff and politeness sleeps of a trace, in order, in ms. -/
def extractSleeps (T : List Eff) : List Nat :=
  T.filterMap (fun e => match e with
    | Eff.sleep ms => some ms
    | _ => none)

/-- The listing pages requested for one state id, in order. -/
def listingPages (sid : String) (T : List Eff) : List Nat :=
  T.filterMap (fun e => match e with
    | Eff.fetchListing s p => if s = sid then some p else none
    | _ => none)

/-- The partitions the orchestrator started, in order. -/
def startPartitions (T : List Eff) : List String :=
  T.filterMap (fun e => match e with
    | Eff.startPartition p => some p
    | _ => none)

/-- The trace strictly after the first poll that observed a stop
request; empty when no poll observed one. -/
def afterFirstStop : List Eff → List Eff
  | [] => []
  | e :: rest => if e = Eff.pollFlag true then rest else afterFirstStop rest

/-- Effects that start new crawl work: a partition, a listing page
fetch, a work batch, or a detail page fetch. -/
def workEff : Eff → Bool
  | Eff.startPartition _ => true
  | Eff.fetchListing _ _ => true
  | Eff.startBatch => true
  | Eff.httpGet _ => true
  | _ => false

/-- Effects that may legitimately follow an observed stop request:
progress logs, progress saves, and further polls that also observe the
stop. -/
def allowedEff : Eff → Bool
  | Eff.log => true
  | Eff.saveProgress => true
  | Eff.errorEvent => true
  | Eff.pollFlag b => b
  | _ => false

/-- A fresh scraper state: nothing tracked, no progress, nothing
completed. -/
def st0 : St := ⟨[], [], [], 0, 0, 0⟩

/-- An environment where every fetch succeeds (listing pages carry no
links) and no stop is ever requested. -/
def envSucc : Env :=
  ⟨fun _ _ _ => PageResult.ok [], fun _ _ => true, none, 5⟩

/-- An environment where every fetch fails with a transient network
error and no stop is ever requested. -/
def envFail : Env :=
  ⟨fun _ _ _ => PageResult.netErr, fun _ _ => false, none, 5⟩

end CarScraper

open CarScraper Combined Checkpoint

/-! ## C3: checkpoint save is not an atomic temp-and-rename write -/

/-- C3 counterexample: the claim states that saveProgress writes the
progress state to a temporary location and atomically renames it over
the checkpoint file.  The embedded save path of src/scraper.js lines 471
to 491 performs a single direct fs.writeFile to the progress file, so the
claimed write-then-rename shape is refuted at the concrete serialized
state "x". -/
theorem c3_counterexample : ¬ atomicReplaceSave (saveProgressOps "x") := by
  rintro ⟨tmp, content, hne, heq⟩
  simp [saveProgressOps] at heq

/-- C3 amended: saveProgress writes the serialized progress state
directly to the progress file in place, with no temporary file and no
rename; consequently a crash during that single write leaves the only
checkpoint file torn. -/
theorem c3_in_place_write (c : String) (f : String → Option FileVal) :
    saveProgressOps c = [FileOp.fwrite progressPath c] ∧
      runCrash (saveProgressOps c) 0 f progressPath = some FileVal.torn := by
  constructor
  · rfl
  · simp [saveProgressOps, runCrash, crashDuring]

/-! ## C10: the combined walker returns deduplicated links -/

theorem jsDedup_go_nodup (l : List String) (acc : List String) (h : acc.Nodup) :
    (l.foldl (fun acc x => if x ∈ acc then acc else acc ++ [x]) acc).Nodup := by
  induction l generalizing acc with
  | nil => simpa using h
  | cons x xs ih =>
    simp only [List.foldl_cons]
    by_cases hx : x ∈ acc
    · simpa [hx] using ih acc h
    · have : (acc ++ [x]).Nodup := by
        simp [List.nodup_append, h, hx]
      simpa [hx] using ih (acc ++ [x]) this

theorem jsDedup_nodup (l : List String) : (jsDedup l).Nodup :=
  jsDedup_go_nodup l [] List.nodup_nil

theorem regionEventsAux_nodup (cenv : CEnv) (fuel page consec : Nat)
    (acc : List String) :
    (Combined.scrapeRegionEventsAux cenv fuel page consec acc).2.Nodup := by
  induction fuel generalizing page consec acc with
  | zero => simpa [Combined.scrapeRegionEventsAux] using jsDedup_nodup acc
  | succ n ih =>
    simp only [Combined.scrapeRegionEventsAux]
    split
    · split
      · split
        · exact jsDedup_nodup acc
        · exact ih (page + 1) (consec + 1) acc
      · exact ih (page + 1) 0 (acc ++ (cenv.puppet page).links)
    · exact ih (page + 1) 0 (acc ++ (cenv.axios page).links)

/-- C10: for every fetch environment and fuel bound, the link list
returned by scrapeRegionEvents of src/combinedScraper.js has no
duplicates: every exit path passes the accumulated links through a Set,
so each URL appears at most once in the result even when the same link
was yielded by several pages or by both fetch paths. -/
theorem c10_region_events_nodup (cenv : CEnv) (fuel : Nat) :
    (Combined.scrapeRegionEvents cenv fuel).2.Nodup :=
  regionEventsAux_nodup cenv fuel 1 0 []

/-! ## C1: dedup-add happens before the sink write, not after -/

theorem detailsAux_add_then_write (env : Env) (link : String) :
    ∀ fuel retries s,
      Eff.writeCsv link ∈ (scrapeEventDetailsAux env link fuel retries s).1 →
      ∃ pre post,
        (scrapeEventDetailsAux env link fuel retries s).1 =
          pre ++ [Eff.addTracked link, Eff.writeCsv link] ++ post := by
  intro fuel
  induction fuel with
  | zero => intro retries s h; simp [scrapeEventDetailsAux] at h
  | succ n ih =>
    intro retries s h
    simp only [scrapeEventDetailsAux] at h ⊢
    by_cases htr : link ∈ s.tracked
    · simp [htr] at h
    · simp only [htr, if_neg, ite_false] at h ⊢
      by_cases hf : env.fetchEvent link retries = true
      · refine ⟨(if retries > 0 then [Eff.sleep (2 ^ retries * 1000)] else []) ++
          [Eff.httpGet link], [Eff.log], ?_⟩
        simp [hf]
      · simp only [hf, Bool.false_eq_true, if_false, ite_false] at h ⊢
        by_cases hb : retries + 1 ≥ maxRetries
        · exfalso
          simp only [hb, if_pos, ite_true] at h
          rcases List.mem_append.mp h with h1 | h1
          · split at h1 <;> simp_all
          · simp at h1
        · simp only [hb, if_neg, ite_false] at h ⊢
          rcases List.mem_append.mp h with h1 | h1
          · exfalso
            rcases List.mem_append.mp h1 with h2 | h2
            · split at h2 <;> simp_all
            · simp at h2
          · obtain ⟨pre, post, hd⟩ := ih (retries + 1) s h1
            exact ⟨((if retries > 0 then [Eff.sleep (2 ^ retries * 1000)] else []) ++
              [Eff.httpGet link, Eff.errorEvent]) ++ pre, post, by
                simp only [hd, List.append_assoc]⟩

/-- C1 counterexample: the claim states that a valid record is written to
the CSV sink first and the link is added to trackedEventLinks only after
a successful write.  In the embedded scrapeEventDetails (src/scraper.js
lines 991 to 995) at a concrete link with a succeeding fetch, the trace
contains both effects but the addTracked effect occurs strictly before
the writeCsv effect, refuting the claimed order. -/
theorem c1_counterexample :
    Eff.writeCsv "u" ∈ (scrapeEventDetails envSucc "u" st0).1 ∧
    Eff.addTracked "u" ∈ (scrapeEventDetails envSucc "u" st0).1 ∧
    (scrapeEventDetails envSucc "u" st0).1.indexOf (Eff.addTracked "u") <
      (scrapeEventDetails envSucc "u" st0).1.indexOf (Eff.writeCsv "u") := by
  decide

/-- C1 amended: whenever a detail record is written to the CSV sink, the
link is added to trackedEventLinks immediately before the write (the
trace contains the adjacent pair addTracked then writeCsv), so a crash
between the add and the write can leave a link deduplicated without its
record in the output. -/
theorem c1_add_immediately_before_write (env : Env) (link : String) (s : St)
    (h : Eff.writeCsv link ∈ (scrapeEventDetails env link s).1) :
    ∃ pre post,
      (scrapeEventDetails env link s).1 =
        pre ++ [Eff.addTracked link, Eff.writeCsv link] ++ post :=
  detailsAux_add_then_write env link maxRetries 0 s h

/-- C1 witness: the amended theorem applied at a concrete link with a
succeeding fetch. -/
theorem c1_witness :
    ∃ pre post,
      (scrapeEventDetails envSucc "u" st0).1 =
        pre ++ [Eff.addTracked "u", Eff.writeCsv "u"] ++ post :=
  c1_add_immediately_before_write envSucc "u" st0 (by decide)

/-! ## C4: retry count and the actual backoff schedule -/

/-- C4 counterexample: the claim states that a fetch that always fails
with a retryable error sleeps baseDelay times multiplier to the power
attempt minus one between attempts, with baseDelay 1s and multiplier 2,
so delays 1000 ms then 2000 ms.  In the embedded scrapeEventDetails the
delay is 2 to the power retries times 1000, so at a concrete always
failing link the trace sleeps 2000 ms then 4000 ms, refuting the claimed
schedule (the three-attempt bound itself holds). -/
theorem c4_counterexample :
    (scrapeEventDetails envFail "u" st0).1.count (Eff.httpGet "u") = 3 ∧
    extractSleeps (scrapeEventDetails envFail "u" st0).1 = [2000, 4000] ∧
    extractSleeps (scrapeEventDetails envFail "u" st0).1 ≠ [1000, 2000] := by
  decide

/-- C4 amended: a fetch that always fails with a retryable error is
attempted exactly maxRetries (3) times, with sleeps of baseDelay times
multiplier to the power of the attempt number (2000 ms then 4000 ms, not
1000 then 2000) between attempts, after which the failure is surfaced:
the detail scrape returns null and the listing page attempt ends
exhausted.  This holds for both the detail page fetch and the listing
page fetch of src/scraper.js. -/
theorem c4_retry_bound_and_delays :
    (∀ (env : Env) (link : String) (s : St),
      (∀ r, env.fetchEvent link r = false) → link ∉ s.tracked →
      (scrapeEventDetails env link s).1.count (Eff.httpGet link) = 3 ∧
      extractSleeps (scrapeEventDetails env link s).1 = [2000, 4000] ∧
      (scrapeEventDetails env link s).2.2 = false) ∧
    (∀ (env : Env) (sid : String) (p : Nat) (s : St),
      (∀ r, env.fetchListing sid p r = PageResult.netErr) →
      (pageAttempt env sid p s).1.count (Eff.fetchListing sid p) = 3 ∧
      extractSleeps (pageAttempt env sid p s).1 = [2000, 4000] ∧
      (pageAttempt env sid p s).2.2 = PageOutcome.exhausted) := by
  constructor
  · intro env link s hfail htr
    simp [scrapeEventDetails, scrapeEventDetailsAux, maxRetries, hfail 0, hfail 1, hfail 2,
      htr, extractSleeps, List.count_cons]
  · intro env sid p s hfail
    simp [pageAttempt, pageAttemptAux, maxRetries, hfail 0, hfail 1, hfail 2,
      extractSleeps, List.count_cons]

/-- C4 witness: the amended theorem applied to concrete always failing
detail and listing fetches. -/
theorem c4_witness :
    ((scrapeEventDetails envFail "u" st0).1.count (Eff.httpGet "u") = 3 ∧
      extractSleeps (scrapeEventDetails envFail "u" st0).1 = [2000, 4000] ∧
      (scrapeEventDetails envFail "u" st0).2.2 = false) ∧
    ((pageAttempt envFail "s" 1 st0).1.count (Eff.fetchListing "s" 1) = 3 ∧
      extractSleeps (pageAttempt envFail "s" 1 st0).1 = [2000, 4000] ∧
      (pageAttempt envFail "s" 1 st0).2.2 = PageOutcome.exhausted) :=
  ⟨c4_retry_bound_and_delays.1 envFail "u" st0 (fun _ => rfl) (by simp [st0]),
    c4_retry_bound_and_delays.2 envFail "s" 1 st0 (fun _ => rfl)⟩

/-! ## C2: terminal listing failure still marks the partition completed -/

/-- C2 counterexample: the claim states that after a terminal listing
failure (all retries exhausted, not a 404) the partition is NOT marked
completed, so that it is retried on the next run.  Running the embedded
scrapeStateWorker against a listing fetch that always fails with a
transient error, the state id is nevertheless added to completedStates
(src/scraper.js line 791 runs unconditionally after the page loop). -/
theorem c2_counterexample :
    listingPages "s" (scrapeStateWorker envFail "s" 1 st0).1 = [1, 1, 1] ∧
    "s" ∈ (scrapeStateWorker envFail "s" 1 st0).2.1.completed := by
  decide

/-- C2 amended: when the listing fetch of a partition fails terminally
(three transient failures on its first page), the walker does stop the
partition early (only page 1 is ever requested, three attempts), keeps
the cursor at the last successful page (stateProgress is unchanged),
surfaces an error event, and returns normally - but contrary to the
claim it DOES mark the partition completed, so the partition is not
retried on the next run. -/
theorem c2_terminal_failure_still_marks_completed
    (env : Env) (sid : String) (fuel : Nat) (s : St)
    (hfail : ∀ r, env.fetchListing sid 1 r = PageResult.netErr)
    (hstop : env.stopAfter = none)
    (hnc : sid ∉ s.completed)
    (hlp : lookupLastPage s.stateProgress sid = none) :
    listingPages sid (scrapeStateWorker env sid (fuel + 1) s).1 = [1, 1, 1] ∧
    Eff.errorEvent ∈ (scrapeStateWorker env sid (fuel + 1) s).1 ∧
    (scrapeStateWorker env sid (fuel + 1) s).2.1.stateProgress = s.stateProgress ∧
    sid ∈ (scrapeStateWorker env sid (fuel + 1) s).2.1.completed ∧
    (scrapeStateWorker env sid (fuel + 1) s).2.2.2 = false := by
  simp [scrapeStateWorker, pagesLoopAux, pageAttempt, pageAttemptAux, poll, stopObserved,
    hstop, hnc, hlp, hfail 0, hfail 1, hfail 2, maxRetries, listingPages]

/-- C2 witness: the amended theorem at a concrete always failing
listing fetch. -/
theorem c2_witness :
    listingPages "s" (scrapeStateWorker envFail "s" 1 st0).1 = [1, 1, 1] ∧
    Eff.errorEvent ∈ (scrapeStateWorker envFail "s" 1 st0).1 ∧
    (scrapeStateWorker envFail "s" 1 st0).2.1.stateProgress = st0.stateProgress ∧
    "s" ∈ (scrapeStateWorker envFail "s" 1 st0).2.1.completed ∧
    (scrapeStateWorker envFail "s" 1 st0).2.2.2 = false :=
  c2_terminal_failure_still_marks_completed envFail "s" 0 st0
    (fun _ => rfl) rfl (by simp [st0]) rfl

/-! ## C8: a 404 on a listing page ends pagination, it is not an error -/

/-- C8: when the first attempt at a listing page of a fresh partition
returns HTTP 404, the embedded scrapeStateWorker requests that page
exactly once (the 404 is not retried as a transient failure), requests
no further page of the partition, marks the partition completed
(pagination ended) and returns normally rather than failing the run. -/
theorem c8_listing_404_ends_pagination
    (env : Env) (sid : String) (fuel : Nat) (s : St)
    (h404 : env.fetchListing sid 1 0 = PageResult.http404)
    (hstop : env.stopAfter = none)
    (hnc : sid ∉ s.completed)
    (hlp : lookupLastPage s.stateProgress sid = none) :
    listingPages sid (scrapeStateWorker env sid (fuel + 1) s).1 = [1] ∧
    sid ∈ (scrapeStateWorker env sid (fuel + 1) s).2.1.completed ∧
    (scrapeStateWorker env sid (fuel + 1) s).2.2.2 = false := by
  simp [scrapeStateWorker, pagesLoopAux, pageAttempt, pageAttemptAux, poll, stopObserved,
    hstop, hnc, hlp, h404, maxRetries, listingPages]

/-- An environment whose listing fetch always returns 404. -/
def env404 : Env :=
  ⟨fun _ _ _ => PageResult.http404, fun _ _ => false, none, 5⟩

/-- C8 witness: the theorem at a concrete 404 listing fetch. -/
theorem c8_witness :
    listingPages "s" (scrapeStateWorker env404 "s" 1 st0).1 = [1] ∧
    "s" ∈ (scrapeStateWorker env404 "s" 1 st0).2.1.completed ∧
    (scrapeStateWorker env404 "s" 1 st0).2.2.2 = false :=
  c8_listing_404_ends_pagination env404 "s" 0 st0 rfl rfl (by simp [st0]) rfl

/-! ## C5: pagination termination thresholds of the two walkers -/

namespace Combined

/-- Whether a page yields nothing through both fetch paths of the
combined walker: axios failed or found no links, and the puppeteer
fallback also failed or found no links. -/
def pageEmptyB (cenv : CEnv) (p : Nat) : Bool :=
  (!(cenv.axios p).success || (cenv.axios p).links.isEmpty) &&
    (!(cenv.puppet p).success || (cenv.puppet p).links.isEmpty)

end Combined

theorem regionEventsAux_requests_head (cenv : CEnv) (fuel page consec : Nat)
    (acc : List String) :
    page ∈ requestedPages (Combined.scrapeRegionEventsAux cenv (fuel + 1) page consec acc).1 := by
  simp only [Combined.scrapeRegionEventsAux]
  split
  · split
    · split <;> simp [requestedPages]
    · simp [requestedPages]
  · simp [requestedPages]

theorem regionEventsAux_step_empty_continue (cenv : CEnv) (fuel page consec : Nat)
    (acc : List String)
    (ha : (!(cenv.axios page).success || (cenv.axios page).links.isEmpty) = true)
    (hp : (!(cenv.puppet page).success || (cenv.puppet page).links.isEmpty) = true)
    (hc : consec + 1 < 2) :
    Combined.scrapeRegionEventsAux cenv (fuel + 1) page consec acc =
      ([CWEff.axiosFetch page, CWEff.clog, CWEff.pupFetch page, CWEff.clog, CWEff.csleep] ++
        (Combined.scrapeRegionEventsAux cenv fuel (page + 1) (consec + 1) acc).1,
        (Combined.scrapeRegionEventsAux cenv fuel (page + 1) (consec + 1) acc).2) := by
  conv_lhs => rw [Combined.scrapeRegionEventsAux]
  simp [ha, hp, not_le.mpr hc]

theorem regionEventsAux_step_stop (cenv : CEnv) (fuel page consec : Nat)
    (acc : List String)
    (ha : (!(cenv.axios page).success || (cenv.axios page).links.isEmpty) = true)
    (hp : (!(cenv.puppet page).success || (cenv.puppet page).links.isEmpty) = true)
    (hc : 2 ≤ consec + 1) :
    Combined.scrapeRegionEventsAux cenv (fuel + 1) page consec acc =
      ([CWEff.axiosFetch page, CWEff.clog, CWEff.pupFetch page, CWEff.clog], jsDedup acc) := by
  conv_lhs => rw [Combined.scrapeRegionEventsAux]
  simp [ha, hp, hc]

theorem regionEventsAux_step_axios_good (cenv : CEnv) (fuel page consec : Nat)
    (acc : List String)
    (ha : (!(cenv.axios page).success || (cenv.axios page).links.isEmpty) = false) :
    Combined.scrapeRegionEventsAux cenv (fuel + 1) page consec acc =
      ([CWEff.axiosFetch page, CWEff.csleep] ++
        (Combined.scrapeRegionEventsAux cenv fuel (page + 1) 0
          (acc ++ (cenv.axios page).links)).1,
        (Combined.scrapeRegionEventsAux cenv fuel (page + 1) 0
          (acc ++ (cenv.axios page).links)).2) := by
  conv_lhs => rw [Combined.scrapeRegionEventsAux]
  simp [ha]

theorem regionEventsAux_step_pup_good (cenv : CEnv) (fuel page consec : Nat)
    (acc : List String)
    (ha : (!(cenv.axios page).success || (cenv.axios page).links.isEmpty) = true)
    (hp : (!(cenv.puppet page).success || (cenv.puppet page).links.isEmpty) = false) :
    Combined.scrapeRegionEventsAux cenv (fuel + 1) page consec acc =
      ([CWEff.axiosFetch page, CWEff.clog, CWEff.pupFetch page, CWEff.csleep] ++
        (Combined.scrapeRegionEventsAux cenv fuel (page + 1) 0
          (acc ++ (cenv.puppet page).links)).1,
        (Combined.scrapeRegionEventsAux cenv fuel (page + 1) 0
          (acc ++ (cenv.puppet page).links)).2) := by
  conv_lhs => rw [Combined.scrapeRegionEventsAux]
  simp [ha, hp]

/-- C5: pagination termination.  Part one: when both fetch paths of the
combined walker yield nothing on page p and again on page p plus one
(starting with a fresh consecutive-empty counter), the walker requests
exactly pages p and p plus one and stops - it never requests page p plus
two.  Part two: when page p yields nothing but page p plus one yields
links, the walker does not stop after the single empty page: it goes on
to request page p plus two.  Part three: in the direct HTTP walker of
scrapeStateWorker, a single clean zero-item listing response at page q
ends pagination immediately: only page q is requested and the loop
finishes. -/
theorem c5_pagination_termination :
    (∀ (cenv : CEnv) (fuel p : Nat) (acc : List String),
      pageEmptyB cenv p = true → pageEmptyB cenv (p + 1) = true →
      requestedPages (Combined.scrapeRegionEventsAux cenv (fuel + 2) p 0 acc).1 = [p, p + 1]) ∧
    (∀ (cenv : CEnv) (fuel p : Nat) (acc : List String),
      pageEmptyB cenv p = true → pageEmptyB cenv (p + 1) = false →
      p + 2 ∈ requestedPages (Combined.scrapeRegionEventsAux cenv (fuel + 3) p 0 acc).1) ∧
    (∀ (env : Env) (sid : String) (fuel q : Nat) (acc : List String) (s : St),
      env.fetchListing sid q 0 = PageResult.ok [] → env.stopAfter = none →
      listingPages sid (pagesLoopAux env sid (fuel + 1) q acc s).1 = [q] ∧
      (pagesLoopAux env sid (fuel + 1) q acc s).2.2.2 = LoopEnd.finished) := by
  refine ⟨?_, ?_, ?_⟩
  · intro cenv fuel p acc h1 h2
    simp only [Combined.pageEmptyB, Bool.and_eq_true] at h1 h2
    rw [regionEventsAux_step_empty_continue cenv (fuel + 1) p 0 acc h1.1 h1.2 (by omega),
      regionEventsAux_step_stop cenv fuel (p + 1) 1 acc h2.1 h2.2 (by omega)]
    simp [requestedPages]
  · intro cenv fuel p acc h1 h2
    simp only [Combined.pageEmptyB, Bool.and_eq_true] at h1
    simp only [Combined.pageEmptyB] at h2
    rw [regionEventsAux_step_empty_continue cenv (fuel + 2) p 0 acc h1.1 h1.2 (by omega)]
    cases ha : (!(cenv.axios (p + 1)).success || (cenv.axios (p + 1)).links.isEmpty) with
    | false =>
      rw [regionEventsAux_step_axios_good cenv (fuel + 1) (p + 1) 1 acc ha]
      have hh := regionEventsAux_requests_head cenv fuel (p + 1 + 1) 0
        (acc ++ (cenv.axios (p + 1)).links)
      simp only [requestedPages, List.filterMap_append] at hh ⊢
      exact List.mem_append_right _ (List.mem_append_right _ hh)
    | true =>
      have hp : (!(cenv.puppet (p + 1)).success || (cenv.puppet (p + 1)).links.isEmpty) = false := by
        cases hpv : (!(cenv.puppet (p + 1)).success || (cenv.puppet (p + 1)).links.isEmpty) with
        | false => rfl
        | true => rw [ha, hpv] at h2; simp at h2
      rw [regionEventsAux_step_pup_good cenv (fuel + 1) (p + 1) 1 acc ha hp]
      have hh := regionEventsAux_requests_head cenv fuel (p + 1 + 1) 0
        (acc ++ (cenv.puppet (p + 1)).links)
      simp only [requestedPages, List.filterMap_append] at hh ⊢
      exact List.mem_append_right _ (List.mem_append_right _ hh)
  · intro env sid fuel q acc s hok hstop
    simp [pagesLoopAux, pageAttempt, pageAttemptAux, poll, stopObserved, hstop, hok,
      maxRetries, listingPages]

/-- A combined fetch environment where every page yields nothing on both
paths. -/
def cenvEmpty : CEnv := ⟨fun _ => ⟨true, []⟩, fun _ => ⟨true, []⟩⟩

/-- A combined fetch environment where page 1 yields nothing but every
later page yields one link through axios. -/
def cenvAlt : CEnv :=
  ⟨fun n => if n = 1 then ⟨true, []⟩ else ⟨true, ["a"]⟩, fun _ => ⟨true, []⟩⟩

/-- C5 witness: the three parts at concrete fetch environments. -/
theorem c5_witness :
    requestedPages (Combined.scrapeRegionEventsAux cenvEmpty 2 1 0 []).1 = [1, 2] ∧
    (3 : Nat) ∈ requestedPages (Combined.scrapeRegionEventsAux cenvAlt 3 1 0 []).1 ∧
    listingPages "s" (pagesLoopAux envSucc "s" 1 1 [] st0).1 = [1] ∧
    (pagesLoopAux envSucc "s" 1 1 [] st0).2.2.2 = LoopEnd.finished :=
  ⟨c5_pagination_termination.1 cenvEmpty 0 1 [] (by decide) (by decide),
    c5_pagination_termination.2.1 cenvAlt 0 1 [] (by decide) (by decide),
    (c5_pagination_termination.2.2 envSucc "s" 0 1 [] st0 rfl rfl).1,
    (c5_pagination_termination.2.2 envSucc "s" 0 1 [] st0 rfl rfl).2⟩

/-! ## C6: tracked links are never fetched again -/

theorem detailsAux_tracked_mono (env : Env) (link : String) :
    ∀ fuel retries s, s.tracked ⊆ ((scrapeEventDetailsAux env link fuel retries s).2.1).tracked := by
  intro fuel
  induction fuel with
  | zero => intro r s; simp [scrapeEventDetailsAux]
  | succ n ih =>
    intro r s
    simp only [scrapeEventDetailsAux]
    by_cases htr : link ∈ s.tracked
    · simp [htr]
    · simp only [htr, ite_false]
      by_cases hf : env.fetchEvent link r = true
      · simp only [hf, if_true, ite_true]
        exact fun x hx => List.mem_cons_of_mem _ hx
      · simp only [hf, Bool.false_eq_true, if_false, ite_false]
        by_cases hb : r + 1 ≥ maxRetries
        · simp [hb]
        · simpa [hb] using ih (r + 1) s

theorem detailsAux_httpGet_origin (env : Env) (link : String) :
    ∀ fuel retries s m, Eff.httpGet m ∈ (scrapeEventDetailsAux env link fuel retries s).1 →
      m = link ∧ link ∉ s.tracked := by
  intro fuel
  induction fuel with
  | zero => intro r s m h; simp [scrapeEventDetailsAux] at h
  | succ n ih =>
    intro r s m h
    simp only [scrapeEventDetailsAux] at h
    by_cases htr : link ∈ s.tracked
    · simp [htr] at h
    · refine ⟨?_, htr⟩
      simp only [htr, ite_false] at h
      by_cases hf : env.fetchEvent link r = true
      · simp only [hf, if_true, ite_true] at h
        rcases List.mem_append.mp h with h1 | h1
        · by_cases hr : r > 0 <;> simp [hr] at h1
        · simp at h1
          exact h1
      · simp only [hf, Bool.false_eq_true, if_false, ite_false] at h
        by_cases hb : r + 1 ≥ maxRetries
        · simp only [hb, if_true, ite_true] at h
          rcases List.mem_append.mp h with h1 | h1
          · by_cases hr : r > 0 <;> simp [hr] at h1
          · simp at h1
            exact h1
        · simp only [hb, if_false, ite_false] at h
          rcases List.mem_append.mp h with h1 | h1
          · rcases List.mem_append.mp h1 with h2 | h2
            · by_cases hr : r > 0 <;> simp [hr] at h2
            · simp at h2
              exact h2
          · exact (ih (r + 1) s m h1).1

theorem processChunk_tracked_mono (env : Env) :
    ∀ c s, s.tracked ⊆ ((processChunk env c s).2.1).tracked := by
  intro c
  induction c with
  | nil => intro s; simp [processChunk]
  | cons l ls ih =>
    intro s
    simp only [processChunk]
    intro x hx
    exact ih _ (detailsAux_tracked_mono env l maxRetries 0 s hx)

theorem processChunk_no_httpGet_of_tracked (env : Env) :
    ∀ c s m, m ∈ s.tracked → Eff.httpGet m ∉ (processChunk env c s).1 := by
  intro c
  induction c with
  | nil => intro s m _ h; simp [processChunk] at h
  | cons l ls ih =>
    intro s m hm h
    simp only [processChunk, List.mem_append] at h
    rcases h with h | h
    · obtain ⟨rfl, hnt⟩ := detailsAux_httpGet_origin env l maxRetries 0 s m h
      exact hnt hm
    · exact ih (scrapeEventDetails env l s).2.1 m
        (detailsAux_tracked_mono env l maxRetries 0 s hm) h

theorem processChunks_tracked_mono (env : Env) :
    ∀ cs s, s.tracked ⊆ ((processChunks env cs s).2.1).tracked := by
  intro cs
  induction cs with
  | nil => intro s; simp [processChunks]
  | cons c cs ih =>
    intro s
    simp only [processChunks, poll]
    by_cases hstop : stopObserved env s.polls = true
    · simp [hstop]
    · simp only [hstop, Bool.false_eq_true, if_false, ite_false]
      intro x hx
      exact ih _ (processChunk_tracked_mono env c _ hx)

theorem processChunks_no_httpGet_of_tracked (env : Env) :
    ∀ cs s m, m ∈ s.tracked → Eff.httpGet m ∉ (processChunks env cs s).1 := by
  intro cs
  induction cs with
  | nil => intro s m _ h; simp [processChunks] at h
  | cons c cs ih =>
    intro s m hm h
    simp only [processChunks, poll] at h
    by_cases hstop : stopObserved env s.polls = true
    · simp [hstop] at h
    · simp [hstop] at h
      rcases h with h | h
      · exact absurd h (processChunk_no_httpGet_of_tracked env c _ m hm)
      · exact absurd h (ih _ m (processChunk_tracked_mono env c _ hm))

theorem pageAttempt_tracked_mono (env : Env) (sid : String) (page : Nat) :
    ∀ fuel retries s, s.tracked ⊆ ((pageAttemptAux env sid page fuel retries s).2.1).tracked := by
  intro fuel
  induction fuel with
  | zero => intro r s; simp [pageAttemptAux]
  | succ n ih =>
    intro r s
    simp only [pageAttemptAux]
    split
    · split
      · simp
      · split
        · simpa using processChunks_tracked_mono env _ s
        · simpa using processChunks_tracked_mono env _ s
    · simp
    · split
      · simp
      · simpa using ih (r + 1) s

theorem pageAttempt_no_httpGet_of_tracked (env : Env) (sid : String) (page : Nat) :
    ∀ fuel retries s m, m ∈ s.tracked →
      Eff.httpGet m ∉ (pageAttemptAux env sid page fuel retries s).1 := by
  intro fuel
  induction fuel with
  | zero => intro r s m _ h; simp [pageAttemptAux] at h
  | succ n ih =>
    intro r s m hm h
    simp only [pageAttemptAux] at h
    split at h
    · split at h
      · by_cases hr : r > 0 <;> simp [hr] at h
      · split at h
        · by_cases hr : r > 0 <;> simp [hr] at h <;>
            exact absurd h (processChunks_no_httpGet_of_tracked env _ s m hm)
        · by_cases hr : r > 0 <;> simp [hr] at h <;>
            exact absurd h (processChunks_no_httpGet_of_tracked env _ s m hm)
    · by_cases hr : r > 0 <;> simp [hr] at h
    · split at h
      · by_cases hr : r > 0 <;> simp [hr] at h
      · by_cases hr : r > 0 <;> simp [hr] at h <;>
          exact absurd h (ih (r + 1) s m hm)

theorem pageAttemptW_tracked_mono (env : Env) (sid : String) (page : Nat) (s : St) :
    s.tracked ⊆ ((pageAttempt env sid page s).2.1).tracked :=
  pageAttempt_tracked_mono env sid page maxRetries 0 s

theorem pageAttemptW_no_httpGet_of_tracked (env : Env) (sid : String) (page : Nat) (s : St)
    (m : String) (hm : m ∈ s.tracked) :
    Eff.httpGet m ∉ (pageAttempt env sid page s).1 :=
  pageAttempt_no_httpGet_of_tracked env sid page maxRetries 0 s m hm

theorem pagesLoop_tracked_mono (env : Env) (sid : String) :
    ∀ fuel page acc s, s.tracked ⊆ ((pagesLoopAux env sid fuel page acc s).2.1).tracked := by
  intro fuel
  induction fuel with
  | zero => intro page acc s; simp [pagesLoopAux]
  | succ n ih =>
    intro page acc s
    simp only [pagesLoopAux, poll]
    by_cases hstop : stopObserved env s.polls = true
    · simp [hstop]
    · simp only [hstop, Bool.false_eq_true, if_false, ite_false]
      split
      · intro x hx
        exact ih _ _ _ (pageAttemptW_tracked_mono env sid page _ hx)
      all_goals
        intro x hx
        exact pageAttemptW_tracked_mono env sid page _ hx

theorem pagesLoop_no_httpGet_of_tracked (env : Env) (sid : String) :
    ∀ fuel page acc s m, m ∈ s.tracked →
      Eff.httpGet m ∉ (pagesLoopAux env sid fuel page acc s).1 := by
  intro fuel
  induction fuel with
  | zero => intro page acc s m _ h; simp [pagesLoopAux] at h
  | succ n ih =>
    intro page acc s m hm h
    simp only [pagesLoopAux, poll] at h
    by_cases hstop : stopObserved env s.polls = true
    · simp [hstop] at h
    · simp only [hstop, Bool.false_eq_true, if_false, ite_false] at h
      split at h
      · simp only [List.mem_cons, List.mem_append] at h
        rcases h with (h | h) | h
        · simp at h
        · exact absurd h (pageAttemptW_no_httpGet_of_tracked env sid page _ m hm)
        · exact absurd h (ih _ _ _ m (pageAttemptW_tracked_mono env sid page _ hm))
      all_goals
        simp only [List.mem_cons] at h
        rcases h with h | h
        · simp at h
        · exact absurd h (pageAttemptW_no_httpGet_of_tracked env sid page _ m hm)

theorem worker_no_httpGet_of_tracked (env : Env) (sid : String) (fuel : Nat) (s : St)
    (m : String) (hm : m ∈ s.tracked) :
    Eff.httpGet m ∉ (scrapeStateWorker env sid fuel s).1 := by
  intro h
  simp only [scrapeStateWorker, poll] at h
  by_cases hstop : stopObserved env s.polls = true
  · simp [hstop] at h
  · simp only [hstop, Bool.false_eq_true, if_false, ite_false] at h
    by_cases hc : sid ∈ ({ s with polls := s.polls + 1 } : St).completed
    · simp [hc] at h
    · simp only [hc, ite_false] at h
      split at h
      · simp only [List.mem_cons, List.mem_append] at h
        rcases h with (h | h) | h
        · simp at h
        · exact absurd h (pagesLoop_no_httpGet_of_tracked env sid fuel _ [] _ m hm)
        · simp at h
      all_goals
        simp only [List.mem_cons] at h
        rcases h with h | h
        · simp at h
        · exact absurd h (pagesLoop_no_httpGet_of_tracked env sid fuel _ [] _ m hm)

/-- C6: for every identifier already in trackedEventLinks when a state
worker runs, no detail-page fetch is ever issued for it - the links are
filtered against the set before scheduling, and scrapeEventDetails
returns null immediately, with no fetch, no effects and no state change,
when called on a link that is already tracked. -/
theorem c6_tracked_links_never_fetched :
    (∀ (env : Env) (sid : String) (fuel : Nat) (s : St) (link : String),
      link ∈ s.tracked →
      Eff.httpGet link ∉ (scrapeStateWorker env sid fuel s).1) ∧
    (∀ (env : Env) (link : String) (s : St),
      link ∈ s.tracked →
      scrapeEventDetails env link s = ([], s, false)) := by
  constructor
  · intro env sid fuel s link hm
    exact worker_no_httpGet_of_tracked env sid fuel s link hm
  · intro env link s hm
    simp [scrapeEventDetails, scrapeEventDetailsAux, maxRetries, hm]

/-- A state with one link already tracked. -/
def stTracked : St := ⟨["u"], [], [], 0, 0, 0⟩

/-- C6 witness: the theorem at a concrete tracked link, against an
environment whose listing pages keep yielding that same link. -/
theorem c6_witness :
    Eff.httpGet "u" ∉
      (scrapeStateWorker ⟨fun _ _ _ => PageResult.ok ["u"], fun _ _ => true, none, 5⟩
        "s" 2 stTracked).1 ∧
    scrapeEventDetails envSucc "u" stTracked = ([], stTracked, false) :=
  ⟨c6_tracked_links_never_fetched.1 ⟨fun _ _ _ => PageResult.ok ["u"], fun _ _ => true, none, 5⟩
      "s" 2 stTracked "u" (by simp [stTracked]),
    c6_tracked_links_never_fetched.2 envSucc "u" stTracked (by simp [stTracked])⟩

/-! ## Effect classification: which effects each layer can emit -/

/-- Effects scrapeEventDetails may emit. -/
def detailEff : Eff → Bool
  | Eff.sleep _ => true
  | Eff.httpGet _ => true
  | Eff.addTracked _ => true
  | Eff.writeCsv _ => true
  | Eff.log => true
  | Eff.errorEvent => true
  | _ => false

/-- Effects the chunk loop may emit: anything except partition starts,
listing fetches and completion marks. -/
def chunkEff : Eff → Bool
  | Eff.startPartition _ => false
  | Eff.fetchListing _ _ => false
  | Eff.markCompleted _ => false
  | _ => true

/-- Effects a state worker for sid may emit: no partition starts, and
listing fetches only for its own state id. -/
def workerEff (sid : String) : Eff → Bool
  | Eff.startPartition _ => false
  | Eff.fetchListing q _ => q == sid
  | _ => true

theorem detailEff_chunkEff {e : Eff} (h : detailEff e = true) : chunkEff e = true := by
  cases e <;> simp_all [detailEff, chunkEff]

theorem chunkEff_workerEff (sid : String) {e : Eff} (h : chunkEff e = true) :
    workerEff sid e = true := by
  cases e <;> simp_all [chunkEff, workerEff]

theorem detailsAux_effs (env : Env) (link : String) :
    ∀ fuel retries s e, e ∈ (scrapeEventDetailsAux env link fuel retries s).1 →
      detailEff e = true := by
  intro fuel
  induction fuel with
  | zero => intro r s e h; simp [scrapeEventDetailsAux] at h
  | succ n ih =>
    intro r s e h
    simp only [scrapeEventDetailsAux] at h
    by_cases htr : link ∈ s.tracked
    · simp [htr] at h
    · simp only [htr, ite_false] at h
      by_cases hf : env.fetchEvent link r = true
      · simp only [hf, if_true, ite_true] at h
        rcases List.mem_append.mp h with h1 | h1
        · by_cases hr : r > 0 <;> simp [hr] at h1 <;> simp [h1, detailEff]
        · simp only [List.mem_cons] at h1
          rcases h1 with h1 | h1 | h1 | h1 <;> simp_all [detailEff]
      · simp only [hf, Bool.false_eq_true, if_false, ite_false] at h
        by_cases hb : r + 1 ≥ maxRetries
        · simp only [hb, if_true, ite_true] at h
          rcases List.mem_append.mp h with h1 | h1
          · by_cases hr : r > 0 <;> simp [hr] at h1 <;> simp [h1, detailEff]
          · simp only [List.mem_cons] at h1
            rcases h1 with h1 | h1 <;> simp_all [detailEff]
        · simp only [hb, if_false, ite_false] at h
          rcases List.mem_append.mp h with h1 | h1
          · rcases List.mem_append.mp h1 with h2 | h2
            · by_cases hr : r > 0 <;> simp [hr] at h2 <;> simp [h2, detailEff]
            · simp only [List.mem_cons] at h2
              rcases h2 with h2 | h2 <;> simp_all [detailEff]
          · exact ih (r + 1) s e h1

theorem processChunk_effs (env : Env) :
    ∀ c s e, e ∈ (processChunk env c s).1 → detailEff e = true := by
  intro c
  induction c with
  | nil => intro s e h; simp [processChunk] at h
  | cons l ls ih =>
    intro s e h
    simp only [processChunk, List.mem_append] at h
    rcases h with h | h
    · exact detailsAux_effs env l maxRetries 0 s e h
    · exact ih _ e h

theorem processChunks_effs (env : Env) :
    ∀ cs s e, e ∈ (processChunks env cs s).1 → chunkEff e = true := by
  intro cs
  induction cs with
  | nil => intro s e h; simp [processChunks] at h
  | cons c cs ih =>
    intro s e h
    simp only [processChunks, poll] at h
    by_cases hstop : stopObserved env s.polls = true
    · simp [hstop] at h
      rcases h with h | h <;> simp [h, chunkEff]
    · simp only [hstop, Bool.false_eq_true, if_false, ite_false, List.mem_cons,
        List.mem_append] at h
      rcases h with (h | h | h) | (h | h | h)
      · simp [h, chunkEff]
      · simp [h, chunkEff]
      · exact detailEff_chunkEff (processChunk_effs env c _ e h)
      · simp [h, chunkEff]
      · simp [h, chunkEff]
      · exact ih _ e h

theorem pageAttempt_effs (env : Env) (sid : String) (page : Nat) :
    ∀ fuel retries s, ∀ e ∈ (pageAttemptAux env sid page fuel retries s).1,
      workerEff sid e = true := by
  intro fuel
  induction fuel with
  | zero => intro r s e h; simp [pageAttemptAux] at h
  | succ n ih =>
    intro r s
    simp only [pageAttemptAux]
    split
    · split
      · split <;> simp [workerEff]
      · split
        · split <;> simp only [List.forall_mem_append, List.forall_mem_cons,
            List.forall_mem_nil] <;>
            exact ⟨⟨by simp [workerEff], by simp [workerEff]⟩,
              fun e he => chunkEff_workerEff sid (processChunks_effs env _ _ e he)⟩
        · split <;> simp only [List.forall_mem_append, List.forall_mem_cons,
            List.forall_mem_nil] <;>
            exact ⟨⟨⟨by simp [workerEff], by simp [workerEff]⟩,
              fun e he => chunkEff_workerEff sid (processChunks_effs env _ _ e he)⟩,
              by simp [workerEff], by simp [workerEff], by simp⟩
    · split <;> simp [workerEff]
    · split
      · split <;> simp [workerEff]
      · split <;> simp only [List.forall_mem_append, List.forall_mem_cons,
          List.forall_mem_nil] <;>
          exact ⟨⟨by simp [workerEff], by simp [workerEff], by simp⟩, ih (r + 1) s⟩

theorem pagesLoop_effs (env : Env) (sid : String) :
    ∀ fuel page acc s, ∀ e ∈ (pagesLoopAux env sid fuel page acc s).1,
      workerEff sid e = true := by
  intro fuel
  induction fuel with
  | zero => intro page acc s e h; simp [pagesLoopAux] at h
  | succ n ih =>
    intro page acc s
    simp only [pagesLoopAux, poll]
    by_cases hstop : stopObserved env s.polls = true
    · simp [hstop, workerEff]
    · simp only [hstop, Bool.false_eq_true, if_false, ite_false]
      split
      · simp only [List.forall_mem_cons, List.forall_mem_append]
        exact ⟨⟨by simp [workerEff],
          fun e he => pageAttempt_effs env sid page maxRetries 0 _ e he⟩,
          ih _ _ _⟩
      all_goals
        simp only [List.forall_mem_cons]
        exact ⟨by simp [workerEff],
          fun e he => pageAttempt_effs env sid page maxRetries 0 _ e he⟩

theorem worker_effs (env : Env) (sid : String) (fuel : Nat) (s : St) :
    ∀ e ∈ (scrapeStateWorker env sid fuel s).1, workerEff sid e = true := by
  simp only [scrapeStateWorker, poll]
  by_cases hstop : stopObserved env s.polls = true
  · simp [hstop, workerEff]
  · simp only [hstop, Bool.false_eq_true, if_false, ite_false]
    by_cases hc : sid ∈ ({ s with polls := s.polls + 1 } : St).completed
    · simp [hc, workerEff]
    · simp only [hc, ite_false]
      split
      · simp only [List.forall_mem_cons, List.forall_mem_append, List.forall_mem_nil]
        exact ⟨⟨by simp [workerEff], fun e he => pagesLoop_effs env sid fuel _ _ _ e he⟩,
          by simp [workerEff], by simp [workerEff], by simp [workerEff], by simp⟩
      all_goals
        simp only [List.forall_mem_cons]
        exact ⟨by simp [workerEff], fun e he => pagesLoop_effs env sid fuel _ _ _ e he⟩

/-! ## C7: resume skips completed partitions and restarts at the saved page -/

theorem detailsAux_completed_eq (env : Env) (link : String) :
    ∀ fuel retries s, (scrapeEventDetailsAux env link fuel retries s).2.1.completed = s.completed := by
  intro fuel
  induction fuel with
  | zero => intro r s; simp [scrapeEventDetailsAux]
  | succ n ih =>
    intro r s
    simp only [scrapeEventDetailsAux]
    by_cases htr : link ∈ s.tracked
    · simp [htr]
    · simp only [htr, ite_false]
      by_cases hf : env.fetchEvent link r = true
      · simp [hf]
      · simp only [hf, Bool.false_eq_true, if_false, ite_false]
        by_cases hb : r + 1 ≥ maxRetries
        · simp [hb]
        · simpa [hb] using ih (r + 1) s

theorem processChunk_completed_eq (env : Env) :
    ∀ c s, (processChunk env c s).2.1.completed = s.completed := by
  intro c
  induction c with
  | nil => intro s; simp [processChunk]
  | cons l ls ih =>
    intro s
    simp only [processChunk]
    rw [ih]
    exact detailsAux_completed_eq env l maxRetries 0 s

theorem processChunks_completed_eq (env : Env) :
    ∀ cs s, (processChunks env cs s).2.1.completed = s.completed := by
  intro cs
  induction cs with
  | nil => intro s; simp [processChunks]
  | cons c cs ih =>
    intro s
    simp only [processChunks, poll]
    by_cases hstop : stopObserved env s.polls = true
    · simp [hstop]
    · simp only [hstop, Bool.false_eq_true, if_false, ite_false]
      rw [ih]
      exact processChunk_completed_eq env c _

theorem pageAttempt_completed_eq (env : Env) (sid : String) (page : Nat) :
    ∀ fuel retries s, (pageAttemptAux env sid page fuel retries s).2.1.completed = s.completed := by
  intro fuel
  induction fuel with
  | zero => intro r s; simp [pageAttemptAux]
  | succ n ih =>
    intro r s
    simp only [pageAttemptAux]
    split
    · split
      · simp
      · split
        · simpa using processChunks_completed_eq env _ s
        · simpa using processChunks_completed_eq env _ s
    · simp
    · split
      · simp
      · simpa using ih (r + 1) s

theorem pagesLoop_completed_eq (env : Env) (sid : String) :
    ∀ fuel page acc s, (pagesLoopAux env sid fuel page acc s).2.1.completed = s.completed := by
  intro fuel
  induction fuel with
  | zero => intro page acc s; simp [pagesLoopAux]
  | succ n ih =>
    intro page acc s
    simp only [pagesLoopAux, poll]
    by_cases hstop : stopObserved env s.polls = true
    · simp [hstop]
    · simp only [hstop, Bool.false_eq_true, if_false, ite_false]
      split
      · rw [ih]
        exact pageAttempt_completed_eq env sid page maxRetries 0 _
      all_goals
        simpa using pageAttempt_completed_eq env sid page maxRetries 0 _

theorem worker_completed_super (env : Env) (sid : String) (fuel : Nat) (s : St) :
    s.completed ⊆ ((scrapeStateWorker env sid fuel s).2.1).completed := by
  simp only [scrapeStateWorker, poll]
  by_cases hstop : stopObserved env s.polls = true
  · simp [hstop]
  · simp only [hstop, Bool.false_eq_true, if_false, ite_false]
    by_cases hc : sid ∈ ({ s with polls := s.polls + 1 } : St).completed
    · simp [hc]
    · simp only [hc, ite_false]
      split
      · intro x hx
        simp only [List.mem_cons]
        right
        rw [pagesLoop_completed_eq]
        exact hx
      all_goals
        intro x hx
        rw [pagesLoop_completed_eq]
        exact hx

theorem worker_fetchListing_own (env : Env) (sid : String) (fuel : Nat) (s : St)
    (pid : String) (p : Nat)
    (h : Eff.fetchListing pid p ∈ (scrapeStateWorker env sid fuel s).1) : pid = sid := by
  have := worker_effs env sid fuel s _ h
  simpa [workerEff] using this

theorem orch_no_fetch_completed (env : Env) (fuel : Nat) :
    ∀ parts s pid p, pid ∈ s.completed →
      Eff.fetchListing pid p ∉ (scrapeAllEventsAux env fuel parts s).1 := by
  intro parts
  induction parts with
  | nil => intro s pid p _ h; simp [scrapeAllEventsAux] at h
  | cons q rest ih =>
    intro s pid p hm h
    simp only [scrapeAllEventsAux, poll] at h
    by_cases hstop : stopObserved env s.polls = true
    · simp [hstop] at h
    · simp only [hstop, Bool.false_eq_true, if_false, ite_false] at h
      by_cases hcq : q ∈ ({ s with polls := s.polls + 1 } : St).completed
      · simp only [hcq, ite_true, List.mem_cons] at h
        rcases h with h | h | h
        · simp at h
        · simp at h
        · exact absurd h (ih _ pid p hm)
      · simp only [hcq, ite_false, List.mem_cons, List.mem_append] at h
        rcases h with (h | h | h) | (h | h | h)
        · simp at h
        · simp at h
        · have hq : pid = q := worker_fetchListing_own env q fuel _ pid p h
          exact hcq (hq ▸ hm)
        · simp at h
        · simp at h
        · exact absurd h (ih _ pid p (worker_completed_super env q fuel _ hm))

theorem pageAttempt_head (env : Env) (sid : String) (page : Nat) (s : St) :
    ∃ t', (pageAttempt env sid page s).1 = Eff.log :: Eff.fetchListing sid page :: t' := by
  simp only [pageAttempt, pageAttemptAux, maxRetries]
  split
  · split
    · exact ⟨_, rfl⟩
    · split
      · exact ⟨_, rfl⟩
      · exact ⟨_, rfl⟩
  · exact ⟨_, rfl⟩
  · split
    · exact ⟨_, rfl⟩
    · exact ⟨_, rfl⟩

theorem pagesLoop_first_fetch (env : Env) (sid : String) (fuel page : Nat)
    (acc : List String) (s : St) (hstop : env.stopAfter = none) :
    (listingPages sid (pagesLoopAux env sid (fuel + 1) page acc s).1).head? =
      some page := by
  rcases pageAttempt_head env sid page { s with polls := s.polls + 1 } with ⟨t', ht⟩
  simp only [pagesLoopAux, poll, stopObserved, hstop, Bool.false_eq_true, if_false,
    ite_false]
  split
  all_goals rw [ht]
  all_goals simp [listingPages]

theorem worker_resume_first_page (env : Env) (sid : String) (fuel : Nat) (s : St) (lp : Nat)
    (hnc : sid ∉ s.completed)
    (hlp : lookupLastPage s.stateProgress sid = some lp)
    (hstop : env.stopAfter = none) :
    (listingPages sid (scrapeStateWorker env sid (fuel + 1) s).1).head? = some (lp + 1) := by
  have hf := pagesLoop_first_fetch env sid fuel (lp + 1) []
    { s with polls := s.polls + 1 } hstop
  simp only [scrapeStateWorker, poll, stopObserved, hstop]
  simp only [Bool.false_eq_true, if_false, ite_false]
  have hc : sid ∉ ({ s with polls := s.polls + 1 } : St).completed := hnc
  simp only [hc, ite_false, hlp]
  split
  · simp only [listingPages, List.filterMap_cons, List.filterMap_append]
    simp only [listingPages] at hf
    rcases List.head?_eq_some_iff.mp hf with ⟨l2, hl2⟩  
    rw [hl2]
    simp
  all_goals
    simp only [listingPages, List.filterMap_cons]
    simp only [listingPages] at hf
    exact hf

theorem worker_startPartitions_nil (env : Env) (sid : String) (fuel : Nat) (s : St) :
    startPartitions (scrapeStateWorker env sid fuel s).1 = [] := by
  rw [startPartitions, List.filterMap_eq_nil]
  intro e he
  have := worker_effs env sid fuel s e he
  cases e <;> simp_all [workerEff]

theorem orch_startPartitions_sublist (env : Env) (fuel : Nat) :
    ∀ parts s,
      List.Sublist (startPartitions (scrapeAllEventsAux env fuel parts s).1) parts := by
  intro parts
  induction parts with
  | nil => intro s; simp [scrapeAllEventsAux, startPartitions]
  | cons q rest ih =>
    intro s
    simp only [scrapeAllEventsAux, poll]
    by_cases hstop : stopObserved env s.polls = true
    · simp only [hstop, if_true, ite_true]
      simp [startPartitions]
    · simp only [hstop, Bool.false_eq_true, if_false, ite_false]
      by_cases hcq : q ∈ ({ s with polls := s.polls + 1 } : St).completed
      · simp only [hcq, ite_true]
        simp only [startPartitions, List.filterMap_cons]
        exact (ih _).cons q
      · simp only [hcq, ite_false]
        simp only [startPartitions, List.filterMap_cons, List.filterMap_append]
        have hw := worker_startPartitions_nil env q fuel { s with polls := s.polls + 1 }
        rw [startPartitions] at hw
        rw [hw]
        simpa using (ih _).cons₂ q

/-- C7: resumed-run behaviour.  Part one: no listing page of a partition
whose id is already in completedStates is ever fetched by the
orchestrator (the partition is skipped).  Part two: the partitions the
orchestrator starts form a subsequence, in order, of the partition list
from the resume index on.  Part three: a worker for a partially done
partition (lastPage lp recorded in the checkpoint, not completed)
requests page lp plus one first, not page 1. -/
theorem c7_resume_skips_and_restarts :
    (∀ (env : Env) (fuel : Nat) (parts : List String) (idx : Nat) (s : St)
        (pid : String) (p : Nat),
      pid ∈ s.completed →
      Eff.fetchListing pid p ∉ (scrapeAllEvents env fuel parts idx s).1) ∧
    (∀ (env : Env) (fuel : Nat) (parts : List String) (idx : Nat) (s : St),
      List.Sublist (startPartitions (scrapeAllEvents env fuel parts idx s).1)
        (parts.drop idx)) ∧
    (∀ (env : Env) (sid : String) (fuel : Nat) (s : St) (lp : Nat),
      sid ∉ s.completed → lookupLastPage s.stateProgress sid = some lp →
      env.stopAfter = none →
      (listingPages sid (scrapeStateWorker env sid (fuel + 1) s).1).head? =
        some (lp + 1)) := by
  refine ⟨?_, ?_, ?_⟩
  · intro env fuel parts idx s pid p hm h
    simp only [scrapeAllEvents, List.mem_cons, List.mem_append] at h
    rcases h with (h | h) | h
    · simp at h
    · exact absurd h (orch_no_fetch_completed env fuel _ s pid p hm)
    · simp at h
  · intro env fuel parts idx s
    simp only [scrapeAllEvents, startPartitions, List.filterMap_cons, List.filterMap_append]
    have := orch_startPartitions_sublist env fuel (parts.drop idx) s
    rw [startPartitions] at this
    simpa using this
  · intro env sid fuel s lp hnc hlp hstop
    exact worker_resume_first_page env sid fuel s lp hnc hlp hstop

/-- A checkpoint state where partition "a" is completed and partition
"s" stopped after page 4. -/
def stResume : St := ⟨[], [("s", 4)], ["a"], 0, 0, 0⟩

/-- C7 witness: the three parts at concrete checkpoint states. -/
theorem c7_witness :
    Eff.fetchListing "a" 1 ∉ (scrapeAllEvents envSucc 1 ["a", "s"] 0 stResume).1 ∧
    List.Sublist (startPartitions (scrapeAllEvents envSucc 1 ["a", "s"] 0 stResume).1)
      ["a", "s"] ∧
    (listingPages "s" (scrapeStateWorker envSucc "s" 1 stResume).1).head? = some 5 :=
  ⟨c7_resume_skips_and_restarts.1 envSucc 1 ["a", "s"] 0 stResume "a" 1 (by simp [stResume]),
    c7_resume_skips_and_restarts.2.1 envSucc 1 ["a", "s"] 0 stResume,
    c7_resume_skips_and_restarts.2.2 envSucc "s" 0 stResume 4 (by simp [stResume])
      (by simp [stResume, lookupLastPage]) rfl⟩

/-! ## C9: after an observed stop request, only saves and logs happen -/

namespace CarScraper

/-- A trace is quiet after a stop observation when everything after the
first poll that observed the stop request is an allowed effect. -/
def quietAfter (T : List Eff) : Bool := (afterFirstStop T).all allowedEff

end CarScraper

theorem afterFirstStop_append_of_not_mem {A B : List Eff}
    (h : Eff.pollFlag true ∉ A) :
    afterFirstStop (A ++ B) = afterFirstStop B := by
  induction A with
  | nil => simp
  | cons e rest ih =>
    simp only [List.mem_cons, not_or] at h
    simp only [List.cons_append, afterFirstStop]
    rw [if_neg (fun he => h.1 he.symm)]
    exact ih h.2

theorem afterFirstStop_append_of_mem {A B : List Eff}
    (h : Eff.pollFlag true ∈ A) :
    afterFirstStop (A ++ B) = afterFirstStop A ++ B := by
  induction A with
  | nil => simp at h
  | cons e rest ih =>
    simp only [List.cons_append, afterFirstStop]
    by_cases he : e = Eff.pollFlag true
    · simp [he]
    · rw [if_neg he, if_neg he]
      refine ih ?_
      rcases List.mem_cons.mp h with h1 | h1
      · exact absurd h1.symm he
      · exact h1

theorem afterFirstStop_cons_ne {e : Eff} {T : List Eff} (h : e ≠ Eff.pollFlag true) :
    afterFirstStop (e :: T) = afterFirstStop T := by
  simp [afterFirstStop, h]

theorem quietAfter_of_all {T : List Eff} (h : T.all allowedEff = true) :
    quietAfter T = true := by
  induction T with
  | nil => simp [quietAfter, afterFirstStop]
  | cons e rest ih =>
    simp only [List.all_cons, Bool.and_eq_true] at h
    by_cases he : e = Eff.pollFlag true
    · simp [quietAfter, afterFirstStop, he, h.2]
    · simp only [quietAfter, afterFirstStop_cons_ne he]
      exact ih h.2

theorem quietAfter_append {A B : List Eff} (hA : quietAfter A = true)
    (hB : B.all allowedEff = true) : quietAfter (A ++ B) = true := by
  by_cases hm : Eff.pollFlag true ∈ A
  · simp only [quietAfter, afterFirstStop_append_of_mem hm, List.all_append]
    simp only [quietAfter] at hA
    simp [hA, hB]
  · simp only [quietAfter, afterFirstStop_append_of_not_mem hm]
    exact quietAfter_of_all hB

theorem quietAfter_append_of_not_mem {A B : List Eff}
    (hm : Eff.pollFlag true ∉ A) (hB : quietAfter B = true) :
    quietAfter (A ++ B) = true := by
  simp only [quietAfter, afterFirstStop_append_of_not_mem hm]
  exact hB

theorem quietAfter_cons_ne {e : Eff} {T : List Eff} (h : e ≠ Eff.pollFlag true)
    (hT : quietAfter T = true) : quietAfter (e :: T) = true := by
  simp only [quietAfter, afterFirstStop_cons_ne h]
  exact hT

theorem stopObserved_mono (env : Env) {j k : Nat} (hjk : j ≤ k)
    (h : stopObserved env j = true) : stopObserved env k = true := by
  cases hs : env.stopAfter with
  | none => simp [stopObserved, hs] at h
  | some n =>
    simp only [stopObserved, hs, decide_eq_true_eq] at h ⊢
    omega

theorem detailsAux_no_poll (env : Env) (link : String) (fuel retries : Nat) (s : St)
    (b : Bool) : Eff.pollFlag b ∉ (scrapeEventDetailsAux env link fuel retries s).1 := by
  intro h
  have := detailsAux_effs env link fuel retries s _ h
  simp [detailEff] at this

theorem processChunk_no_poll (env : Env) (c : List String) (s : St) (b : Bool) :
    Eff.pollFlag b ∉ (processChunk env c s).1 := by
  intro h
  have := processChunk_effs env c s _ h
  simp [detailEff] at this

theorem detailsAux_polls_eq (env : Env) (link : String) :
    ∀ fuel retries s, (scrapeEventDetailsAux env link fuel retries s).2.1.polls = s.polls := by
  intro fuel
  induction fuel with
  | zero => intro r s; simp [scrapeEventDetailsAux]
  | succ n ih =>
    intro r s
    simp only [scrapeEventDetailsAux]
    by_cases htr : link ∈ s.tracked
    · simp [htr]
    · simp only [htr, ite_false]
      by_cases hf : env.fetchEvent link r = true
      · simp [hf]
      · simp only [hf, Bool.false_eq_true, if_false, ite_false]
        by_cases hb : r + 1 ≥ maxRetries
        · simp [hb]
        · simpa [hb] using ih (r + 1) s

theorem processChunk_polls_eq (env : Env) :
    ∀ c s, (processChunk env c s).2.1.polls = s.polls := by
  intro c
  induction c with
  | nil => intro s; simp [processChunk]
  | cons l ls ih =>
    intro s
    simp only [processChunk]
    rw [ih]
    exact detailsAux_polls_eq env l maxRetries 0 s

theorem processChunks_stop_inv (env : Env) :
    ∀ cs s,
      s.polls ≤ (processChunks env cs s).2.1.polls ∧
      ((processChunks env cs s).2.2 = false →
        Eff.pollFlag true ∉ (processChunks env cs s).1) ∧
      ((processChunks env cs s).2.2 = true →
        quietAfter (processChunks env cs s).1 = true ∧
        stopObserved env (processChunks env cs s).2.1.polls = true) := by
  intro cs
  induction cs with
  | nil =>
    intro s
    refine ⟨le_refl _, fun _ => by simp [processChunks], fun h => ?_⟩
    simp [processChunks] at h
  | cons c cs ih =>
    intro s
    simp only [processChunks, poll]
    by_cases hstop : stopObserved env s.polls = true
    · simp only [hstop, if_true, ite_true]
      refine ⟨by simp, fun h => by simp at h, fun _ => ⟨by decide, ?_⟩⟩
      exact stopObserved_mono env (Nat.le_succ _) hstop
    · simp only [hstop, Bool.false_eq_true, if_false, ite_false]
      obtain ⟨ihm, ihf, ihq⟩ := ih ({ (processChunk env c { s with polls := s.polls + 1 }).2.1
        with processed := (processChunk env c { s with polls := s.polls + 1 }).2.1.processed +
          (processChunk env c { s with polls := s.polls + 1 }).2.2 })
      refine ⟨?_, fun hab => ?_, fun hab => ?_⟩
      · calc s.polls ≤ s.polls + 1 := Nat.le_succ _
          _ = (processChunk env c { s with polls := s.polls + 1 }).2.1.polls := by
              rw [processChunk_polls_eq]
          _ ≤ _ := ihm
      · intro hmem
        simp only [List.mem_cons, List.mem_append] at hmem
        rcases hmem with (h | h | h) | (h | h | h)
        · simp at h
        · simp at h
        · exact processChunk_no_poll env c _ true h
        · simp at h
        · simp at h
        · exact ihf hab h
      · obtain ⟨hq, hn⟩ := ihq hab
        refine ⟨?_, hn⟩
        have hnm : Eff.pollFlag true ∉
            Eff.pollFlag false :: Eff.startBatch ::
              (processChunk env c { s with polls := s.polls + 1 }).1 := by
          intro hmem
          rcases List.mem_cons.mp hmem with h1 | h1
          · simp at h1
          · rcases List.mem_cons.mp h1 with h2 | h2
            · simp at h2
            · exact processChunk_no_poll env c _ true h2
        refine quietAfter_append_of_not_mem hnm ?_
        refine quietAfter_cons_ne (by simp) ?_
        exact quietAfter_cons_ne (by simp) hq

theorem pageAttempt_stop_inv (env : Env) (sid : String) (page : Nat) :
    ∀ fuel retries s,
      s.polls ≤ (pageAttemptAux env sid page fuel retries s).2.1.polls ∧
      ((pageAttemptAux env sid page fuel retries s).2.2 ≠ PageOutcome.stoppedMid →
        Eff.pollFlag true ∉ (pageAttemptAux env sid page fuel retries s).1) ∧
      ((pageAttemptAux env sid page fuel retries s).2.2 = PageOutcome.stoppedMid →
        quietAfter (pageAttemptAux env sid page fuel retries s).1 = true ∧
        stopObserved env (pageAttemptAux env sid page fuel retries s).2.1.polls = true) := by
  intro fuel
  induction fuel with
  | zero =>
    intro r s
    refine ⟨le_refl _, fun _ => by simp [pageAttemptAux], fun h => ?_⟩
    simp [pageAttemptAux] at h
  | succ n ih =>
    intro r s
    simp only [pageAttemptAux]
    split
    · split
      · refine ⟨le_refl _, fun _ hmem => ?_, fun h => by simp at h⟩
        by_cases hr : r > 0 <;> simp [hr] at hmem
      · rename_i rawLinks heq hne
        simp only [decide_not]
        obtain ⟨m1, f1, q1⟩ := processChunks_stop_inv env
          (chunksOf (effectiveConcurrency env)
            (rawLinks.filter (fun l => decide (l ∉ s.tracked)))) s
        simp only [decide_not] at m1 f1 q1
        split
        · rename_i hab
          refine ⟨by simpa using m1, fun h => by simp at h, fun _ => ⟨?_, by simpa using (q1 hab).2⟩⟩
          simp only []
          by_cases hr : r > 0 <;>
            simp only [hr, if_true, if_false, ite_true, ite_false, List.cons_append,
              List.nil_append, List.append_assoc] <;>
            repeat1 (first
              | exact (q1 hab).1
              | refine quietAfter_cons_ne (by simp) ?_)
        · rename_i hab
          rw [Bool.not_eq_true] at hab
          refine ⟨?_, fun _ hmem => ?_, fun h => by simp at h⟩
          · simpa using m1
          · by_cases hr : r > 0 <;> simp [hr] at hmem <;>
              exact f1 hab hmem
    · refine ⟨le_refl _, fun _ hmem => ?_, fun h => by simp at h⟩
      by_cases hr : r > 0 <;> simp [hr] at hmem
    · split
      · refine ⟨le_refl _, fun _ hmem => ?_, fun h => by simp at h⟩
        by_cases hr : r > 0 <;> simp [hr] at hmem
      · obtain ⟨m1, f1, q1⟩ := ih (r + 1) s
        refine ⟨by simpa using m1, fun hout hmem => ?_, fun hout => ?_⟩
        · simp only [] at hout
          by_cases hr : r > 0 <;> simp [hr] at hmem <;>
            exact f1 (by simpa using hout) hmem
        · simp only [] at hout
          obtain ⟨hq, hn⟩ := q1 (by simpa using hout)
          refine ⟨?_, by simpa using hn⟩
          simp only []
          by_cases hr : r > 0 <;>
            simp only [hr, if_true, if_false, ite_true, ite_false, List.cons_append,
              List.nil_append, List.append_assoc] <;>
            repeat1 (first
              | exact hq
              | refine quietAfter_cons_ne (by simp) ?_)

theorem pageAttemptW_stop_inv (env : Env) (sid : String) (page : Nat) (s : St) :
    s.polls ≤ (pageAttempt env sid page s).2.1.polls ∧
    ((pageAttempt env sid page s).2.2 ≠ PageOutcome.stoppedMid →
      Eff.pollFlag true ∉ (pageAttempt env sid page s).1) ∧
    ((pageAttempt env sid page s).2.2 = PageOutcome.stoppedMid →
      quietAfter (pageAttempt env sid page s).1 = true ∧
      stopObserved env (pageAttempt env sid page s).2.1.polls = true) :=
  pageAttempt_stop_inv env sid page maxRetries 0 s

theorem pagesLoop_stop_inv (env : Env) (sid : String) :
    ∀ fuel page acc s,
      s.polls ≤ (pagesLoopAux env sid fuel page acc s).2.1.polls ∧
      ((pagesLoopAux env sid fuel page acc s).2.2.2 ≠ LoopEnd.abortedStop →
        Eff.pollFlag true ∉ (pagesLoopAux env sid fuel page acc s).1) ∧
      ((pagesLoopAux env sid fuel page acc s).2.2.2 = LoopEnd.abortedStop →
        quietAfter (pagesLoopAux env sid fuel page acc s).1 = true ∧
        stopObserved env (pagesLoopAux env sid fuel page acc s).2.1.polls = true) := by
  intro fuel
  induction fuel with
  | zero =>
    intro page acc s
    refine ⟨le_refl _, fun _ => by simp [pagesLoopAux], fun h => ?_⟩
    simp [pagesLoopAux] at h
  | succ n ih =>
    intro page acc s
    simp only [pagesLoopAux, poll]
    by_cases hstop : stopObserved env s.polls = true
    · simp only [hstop, if_true, ite_true]
      refine ⟨by simp, fun h => by simp at h, fun _ => ⟨by decide, ?_⟩⟩
      exact stopObserved_mono env (Nat.le_succ _) hstop
    · simp only [hstop, Bool.false_eq_true, if_false, ite_false]
      obtain ⟨am, af, aq⟩ := pageAttemptW_stop_inv env sid page { s with polls := s.polls + 1 }
      split
      · rename_i links heq
        obtain ⟨rm, rf, rq⟩ := ih (page + 1) (acc ++ links)
          (pageAttempt env sid page { s with polls := s.polls + 1 }).2.1
        refine ⟨?_, fun hout hmem => ?_, fun hout => ?_⟩
        · calc s.polls ≤ s.polls + 1 := Nat.le_succ _
            _ ≤ _ := am
            _ ≤ _ := rm
        · simp only [List.cons_append, List.mem_cons, List.mem_append] at hmem
          rcases hmem with h | h | h
          · simp at h
          · exact af (by simp [heq]) h
          · exact rf hout h
        · obtain ⟨hq, hn⟩ := rq hout
          refine ⟨?_, hn⟩
          refine quietAfter_cons_ne (by simp) ?_
          exact quietAfter_append_of_not_mem (af (by simp [heq])) hq
      all_goals rename_i heq
      case _ =>
        refine ⟨by simpa using Nat.le_trans (Nat.le_succ _) am,
          fun _ hmem => ?_, fun h => by simp at h⟩
        rcases List.mem_cons.mp hmem with h | h
        · simp at h
        · exact af (by simp [heq]) h
      case _ =>
        refine ⟨by simpa using Nat.le_trans (Nat.le_succ _) am,
          fun _ hmem => ?_, fun h => by simp at h⟩
        rcases List.mem_cons.mp hmem with h | h
        · simp at h
        · exact af (by simp [heq]) h
      case _ =>
        refine ⟨by simpa using Nat.le_trans (Nat.le_succ _) am,
          fun _ hmem => ?_, fun h => by simp at h⟩
        rcases List.mem_cons.mp hmem with h | h
        · simp at h
        · exact af (by simp [heq]) h
      case _ =>
        obtain ⟨hq, hn⟩ := aq heq
        refine ⟨by simpa using Nat.le_trans (Nat.le_succ _) am,
          fun hout => by simp at hout, fun _ => ⟨?_, by simpa using hn⟩⟩
        exact quietAfter_cons_ne (by simp) hq

theorem worker_stop_inv (env : Env) (sid : String) (fuel : Nat) (s : St) :
    s.polls ≤ (scrapeStateWorker env sid fuel s).2.1.polls ∧
    ((scrapeStateWorker env sid fuel s).2.2.2 = false →
      Eff.pollFlag true ∉ (scrapeStateWorker env sid fuel s).1) ∧
    ((scrapeStateWorker env sid fuel s).2.2.2 = true →
      quietAfter (scrapeStateWorker env sid fuel s).1 = true ∧
      stopObserved env (scrapeStateWorker env sid fuel s).2.1.polls = true) := by
  simp only [scrapeStateWorker, poll]
  by_cases hstop : stopObserved env s.polls = true
  · simp only [hstop, if_true, ite_true]
    refine ⟨by simp, fun h => by simp at h, fun _ => ⟨by decide, ?_⟩⟩
    exact stopObserved_mono env (Nat.le_succ _) hstop
  · simp only [hstop, Bool.false_eq_true, if_false, ite_false]
    by_cases hc : sid ∈ ({ s with polls := s.polls + 1 } : St).completed
    · simp only [hc, ite_true]
      exact ⟨by simp, fun _ => by simp, fun h => by simp at h⟩
    · simp only [hc, ite_false]
      cases hl : lookupLastPage s.stateProgress sid with
      | none =>
        obtain ⟨lm, lf, lq⟩ := pagesLoop_stop_inv env sid fuel 1 []
          { s with polls := s.polls + 1 }
        simp only []
        split
        all_goals rename_i heq
        · refine ⟨by simpa using Nat.le_trans (Nat.le_succ _) lm,
            fun _ hmem => ?_, fun h => by simp at h⟩
          simp only [List.cons_append, List.mem_cons, List.mem_append] at hmem
          rcases hmem with h | h | h
          · simp at h
          · exact lf (by simp [heq]) h
          · simp at h
        · obtain ⟨hq, hn⟩ := lq heq
          exact ⟨by simpa using Nat.le_trans (Nat.le_succ _) lm,
            fun h => by simp at h,
            fun _ => ⟨quietAfter_cons_ne (by simp) hq, by simpa using hn⟩⟩
        · refine ⟨by simpa using Nat.le_trans (Nat.le_succ _) lm,
            fun _ hmem => ?_, fun h => by simp at h⟩
          rcases List.mem_cons.mp hmem with h | h
          · simp at h
          · exact lf (by simp [heq]) h
      | some lp =>
        obtain ⟨lm, lf, lq⟩ := pagesLoop_stop_inv env sid fuel (lp + 1) []
          { s with polls := s.polls + 1 }
        simp only []
        split
        all_goals rename_i heq
        · refine ⟨by simpa using Nat.le_trans (Nat.le_succ _) lm,
            fun _ hmem => ?_, fun h => by simp at h⟩
          simp only [List.cons_append, List.mem_cons, List.mem_append] at hmem
          rcases hmem with h | h | h
          · simp at h
          · exact lf (by simp [heq]) h
          · simp at h
        · obtain ⟨hq, hn⟩ := lq heq
          exact ⟨by simpa using Nat.le_trans (Nat.le_succ _) lm,
            fun h => by simp at h,
            fun _ => ⟨quietAfter_cons_ne (by simp) hq, by simpa using hn⟩⟩
        · refine ⟨by simpa using Nat.le_trans (Nat.le_succ _) lm,
            fun _ hmem => ?_, fun h => by simp at h⟩
          rcases List.mem_cons.mp hmem with h | h
          · simp at h
          · exact lf (by simp [heq]) h

theorem orchAux_all_allowed_of_stop (env : Env) (fuel : Nat) :
    ∀ parts s, stopObserved env s.polls = true →
      (scrapeAllEventsAux env fuel parts s).1.all allowedEff = true := by
  intro parts
  cases parts with
  | nil => intro s _; simp [scrapeAllEventsAux, allowedEff]
  | cons q rest =>
    intro s h
    simp only [scrapeAllEventsAux, poll, h, if_true, ite_true]
    simp [allowedEff]

theorem orchAux_quiet (env : Env) (fuel : Nat) :
    ∀ parts s, quietAfter (scrapeAllEventsAux env fuel parts s).1 = true := by
  intro parts
  induction parts with
  | nil => intro s; simp [scrapeAllEventsAux, quietAfter, afterFirstStop]
  | cons q rest ih =>
    intro s
    simp only [scrapeAllEventsAux, poll]
    by_cases hstop : stopObserved env s.polls = true
    · simp only [hstop, if_true, ite_true]
      decide
    · simp only [hstop, Bool.false_eq_true, if_false, ite_false]
      by_cases hcq : q ∈ ({ s with polls := s.polls + 1 } : St).completed
      · simp only [hcq, ite_true]
        exact quietAfter_cons_ne (by simp) (quietAfter_cons_ne (by simp) (ih _))
      · simp only [hcq, ite_false]
        obtain ⟨wm, wf, wq⟩ := worker_stop_inv env q fuel { s with polls := s.polls + 1 }
        by_cases hab : (scrapeStateWorker env q fuel { s with polls := s.polls + 1 }).2.2.2 = true
        · obtain ⟨hwq, hwn⟩ := wq hab
          have hrest := orchAux_all_allowed_of_stop env fuel rest
            (scrapeStateWorker env q fuel { s with polls := s.polls + 1 }).2.1 hwn
          simp only [List.cons_append]
          refine quietAfter_cons_ne (by simp) (quietAfter_cons_ne (by simp) ?_)
          refine quietAfter_append hwq ?_
          simp [allowedEff, hrest]
        · rw [Bool.not_eq_true] at hab
          simp only [List.cons_append]
          refine quietAfter_cons_ne (by simp) (quietAfter_cons_ne (by simp) ?_)
          refine quietAfter_append_of_not_mem (wf hab) ?_
          exact quietAfter_cons_ne (by simp) (quietAfter_cons_ne (by simp) (ih _))

theorem allowed_imp_not_work {e : Eff} (h : allowedEff e = true) : (!workEff e) = true := by
  cases e <;> simp_all [allowedEff, workEff]

/-- C9: cooperative stop.  For every run of the orchestrator, everything
that happens after the first poll that observed the stop request is
bookkeeping only - no further partition is started, no further listing
page or detail page is fetched, and no further work batch begins (first
conjunct); the very last effect of the run is always a progress save
(the finally block), so the run halts only after persisting the
checkpoint (second conjunct); and whenever a stop was observed, a
progress save does occur after the observation (third conjunct).  The
run function returns normally in all cases - the embedding is total and
no error value exists. -/
theorem c9_stop_persists_and_halts (env : Env) (fuel : Nat) (parts : List String)
    (idx : Nat) (s : St) :
    ((afterFirstStop (scrapeAllEvents env fuel parts idx s).1).all
      (fun e => !workEff e) = true) ∧
    (scrapeAllEvents env fuel parts idx s).1.getLast? = some Eff.saveProgress ∧
    (Eff.pollFlag true ∈ (scrapeAllEvents env fuel parts idx s).1 →
      Eff.saveProgress ∈ afterFirstStop (scrapeAllEvents env fuel parts idx s).1) := by
  have hq : quietAfter (Eff.log :: (scrapeAllEventsAux env fuel (parts.drop idx) s).1
      ++ [Eff.saveProgress]) = true := by
    refine quietAfter_cons_ne (by simp) ?_
    exact quietAfter_append (orchAux_quiet env fuel _ s) (by simp [allowedEff])
  refine ⟨?_, ?_, ?_⟩
  · simp only [scrapeAllEvents]
    simp only [quietAfter] at hq
    rw [List.all_eq_true] at hq ⊢
    intro e he
    exact allowed_imp_not_work (hq e he)
  · simp only [scrapeAllEvents]
    exact List.getLast?_concat _
  · simp only [scrapeAllEvents]
    intro hmem
    have hmem2 : Eff.pollFlag true ∈
        Eff.log :: (scrapeAllEventsAux env fuel (parts.drop idx) s).1 := by
      rcases List.mem_append.mp hmem with h | h
      · exact h
      · simp at h
    rw [afterFirstStop_append_of_mem hmem2]
    exact List.mem_append_right _ (by simp)

/-- An environment where the stop flag is already set when the run
starts. -/
def envStop : Env :=
  ⟨fun _ _ _ => PageResult.ok [], fun _ _ => true, some 0, 5⟩

/-- C9 witness: with the stop flag set from the start, the first poll
observes it and a progress save follows the observation. -/
theorem c9_witness :
    Eff.saveProgress ∈ afterFirstStop (scrapeAllEvents envStop 1 ["a"] 0 st0).1 :=
  (c9_stop_persists_and_halts envStop 1 ["a"] 0 st0).2.2 (by decide)
